import Mathlib

/-!
Verification of the square-grid indexing core of `vonWolfehaus/von-grid`
(`src/grids/SqrGrid.js`): coordinate conversion, hash-keyed sparse cell
storage, neighbor enumeration, procedural generation, random cell
selection, and JSON (de)serialization.

The JavaScript state (`this.cells` object, `this.numCells` counter, etc.)
is embedded as an explicit Lean structure; string-keyed JS objects become
association lists preserving insertion order (the enumeration order JS
guarantees for the non-index string keys this grid produces); JS numbers
holding integer coordinates become `Int`, world positions become `ℚ`.
-/

namespace VonGrid

/-- Modelled from the spec: `vg.Cell` is not under `src/`.  Per the spec's
data model a cell carries signed axial coordinates `q, r, s`, a height `h`,
a `walkable` flag, opaque `userData` (modelled as an opaque string token),
and transient pathfinding scratch fields (cost, priority, parent
back-reference — modelled as a hash-key reference per the spec's design
note — and a visited flag). -/
structure Cell where
  q : Int
  r : Int
  s : Int
  h : Int
  walkable : Bool
  userData : String
  calcCost : Int
  priority : Int
  parent : Option String
  visited : Bool
deriving DecidableEq

/-- Modelled from the spec: the default height a freshly constructed cell
receives; the spec calls it "default height" without fixing the value and
no theorem below depends on the choice. -/
def defaultCellHeight : Int := 1

/-- Modelled from the spec: `new vg.Cell(q, r, s)` — a fresh cell at the
given coordinates with default height, walkable, empty user data and
zeroed scratch fields. -/
def newCell (q r s : Int) : Cell :=
  ⟨q, r, s, defaultCellHeight, true, "", 0, 0, none, false⟩

/-- Modelled from the spec: coordinate-wise addition of cells (the spec's
"copy/compare/arithmetic" behavior), used by `getNeighbors` to offset the
queried cell by a direction. -/
def cellAdd (a b : Cell) : Cell :=
  { a with q := a.q + b.q, r := a.r + b.r, s := a.s + b.s }

/-! ### Decimal rendering of JS numbers

`cellToHash` concatenates `cell.q + '.' + cell.r`, which renders the
integer-valued JS numbers in decimal.  We embed that rendering directly
(a fuel-driven digit loop, most significant digit first, '-' sign for
negatives), so hash strings compute by kernel reduction. -/

/-- The character for a single decimal digit `d < 10` (code point `48 + d`). -/
def digitCh (d : Nat) : Char := Char.ofNat (48 + d)

/-- Digit loop: peel the least significant digit of `n`, prepending digit
characters to `acc`; `fuel` bounds the recursion (callers pass enough). -/
def natCharsCore : Nat → Nat → List Char → List Char
  | 0, _, acc => acc
  | fuel + 1, n, acc =>
    let d := digitCh (n % 10)
    if n / 10 = 0 then d :: acc else natCharsCore fuel (n / 10) (d :: acc)

/-- Decimal digit string of a natural number. -/
def natChars (n : Nat) : List Char := natCharsCore (n + 1) n []

/-- Decimal rendering of an integer, '-'-prefixed when negative. -/
def intChars : Int → List Char
  | .ofNat n => natChars n
  | .negSucc n => '-' :: natChars (n + 1)

/-- Decimal rendering as a string. -/
def intStr (i : Int) : String := ⟨intChars i⟩

/-- `this._hashDelimeter` (sic, spelling from the source): the separator
between the two coordinates in a hash key. -/
def hashDelimeter : String := "."

/-- `cellToHash`: the canonical storage key of a cell, `q + '.' + r`;
`s` is not used in a square grid. -/
def cellToHash (c : Cell) : String :=
  intStr c.q ++ hashDelimeter ++ intStr c.r

/-! ### Correctness of the decimal rendering -/

/-- Numeric value of a digit string (inverse of the rendering). -/
def valChars (l : List Char) : Nat :=
  l.foldl (fun a c => 10 * a + (c.toNat - 48)) 0

theorem digitCh_toNat {d : Nat} (hd : d < 10) : (digitCh d).toNat = 48 + d := by
  interval_cases d <;> decide

theorem natCharsCore_acc (fuel : Nat) :
    ∀ (n : Nat) (acc : List Char),
      natCharsCore fuel n acc = natCharsCore fuel n [] ++ acc := by
  induction fuel with
  | zero => intro n acc; simp [natCharsCore]
  | succ fuel ih =>
    intro n acc
    by_cases h : n / 10 = 0
    · simp [natCharsCore, h]
    · simp only [natCharsCore, h, if_false]
      rw [ih (n / 10) (digitCh (n % 10) :: acc), ih (n / 10) [digitCh (n % 10)]]
      simp

theorem valChars_append_digit (l : List Char) (c : Char) :
    valChars (l ++ [c]) = 10 * valChars l + (c.toNat - 48) := by
  simp [valChars, List.foldl_append]

theorem valChars_natCharsCore (fuel : Nat) :
    ∀ n : Nat, n < 10 ^ fuel → valChars (natCharsCore fuel n []) = n := by
  induction fuel with
  | zero =>
    intro n hn
    interval_cases n
    simp [natCharsCore, valChars]
  | succ fuel ih =>
    intro n hn
    by_cases h : n / 10 = 0
    · have hn10 : n < 10 := by omega
      simp only [natCharsCore, h, if_true]
      simp only [valChars, List.foldl_cons, List.foldl_nil, Nat.mod_eq_of_lt hn10]
      rw [digitCh_toNat hn10]
      omega
    · simp only [natCharsCore, h, if_false]
      rw [natCharsCore_acc, valChars_append_digit]
      have hdiv : n / 10 < 10 ^ fuel := by
        rw [Nat.div_lt_iff_lt_mul (by norm_num)]
        calc n < 10 ^ (fuel + 1) := hn
        _ = 10 ^ fuel * 10 := by ring
      rw [ih (n / 10) hdiv, digitCh_toNat (Nat.mod_lt n (by norm_num))]
      omega

theorem lt_pow_ten (n : Nat) : n < 10 ^ (n + 1) := by
  calc n < 10 ^ n := Nat.lt_pow_self (by norm_num) n
  _ ≤ 10 ^ (n + 1) := Nat.pow_le_pow_right (by norm_num) (Nat.le_succ n)

theorem valChars_natChars (n : Nat) : valChars (natChars n) = n :=
  valChars_natCharsCore (n + 1) n (lt_pow_ten n)

theorem natChars_inj {a b : Nat} (h : natChars a = natChars b) : a = b := by
  have := valChars_natChars a
  rw [h, valChars_natChars] at this
  omega

theorem natCharsCore_digits (fuel : Nat) :
    ∀ n : Nat, ∀ c ∈ natCharsCore fuel n [], 48 ≤ c.toNat ∧ c.toNat ≤ 57 := by
  induction fuel with
  | zero => intro n c hc; simp [natCharsCore] at hc
  | succ fuel ih =>
    intro n c hc
    have hm : n % 10 < 10 := Nat.mod_lt n (by norm_num)
    have hdig : 48 ≤ (digitCh (n % 10)).toNat ∧ (digitCh (n % 10)).toNat ≤ 57 := by
      rw [digitCh_toNat hm]; omega
    by_cases h : n / 10 = 0
    · simp only [natCharsCore, h, if_true] at hc
      simp at hc
      exact hc ▸ hdig
    · simp only [natCharsCore, h, if_false] at hc
      rw [natCharsCore_acc] at hc
      rcases List.mem_append.mp hc with h1 | h2
      · exact ih (n / 10) c h1
      · simp at h2
        exact h2 ▸ hdig

theorem natChars_digits (n : Nat) : ∀ c ∈ natChars n, 48 ≤ c.toNat ∧ c.toNat ≤ 57 :=
  natCharsCore_digits (n + 1) n

theorem natChars_ne_nil (n : Nat) : natChars n ≠ [] := by
  unfold natChars natCharsCore
  by_cases h : n / 10 = 0
  · simp [h]
  · simp only [h, if_false]
    rw [natCharsCore_acc]
    simp

theorem intChars_inj {i j : Int} (h : intChars i = intChars j) : i = j := by
  match i, j with
  | .ofNat a, .ofNat b =>
    simp only [intChars] at h
    exact congrArg Int.ofNat (natChars_inj h)
  | .ofNat a, .negSucc b =>
    exfalso
    simp only [intChars] at h
    have hm : '-' ∈ natChars a := h ▸ List.mem_cons_self _ _
    exact absurd (natChars_digits a '-' hm).1 (by decide)
  | .negSucc a, .ofNat b =>
    exfalso
    simp only [intChars] at h
    have hm : '-' ∈ natChars b := h ▸ List.mem_cons_self _ _
    exact absurd (natChars_digits b '-' hm).1 (by decide)
  | .negSucc a, .negSucc b =>
    simp only [intChars, List.cons.injEq] at h
    have := natChars_inj h.2
    exact congrArg Int.negSucc (by omega)

theorem intChars_ne_dot (i : Int) : ∀ c ∈ intChars i, c ≠ '.' := by
  intro c hc hdot
  subst hdot
  match i with
  | .ofNat n =>
    simp only [intChars] at hc
    exact absurd (natChars_digits n '.' hc).1 (by decide)
  | .negSucc n =>
    simp only [intChars] at hc
    rcases List.mem_cons.mp hc with h1 | h2
    · exact absurd h1 (by decide)
    · exact absurd (natChars_digits (n + 1) '.' h2).1 (by decide)

theorem append_dot_inj :
    ∀ (a b c d : List Char), (∀ x ∈ a, x ≠ '.') → (∀ x ∈ b, x ≠ '.') →
      a ++ '.' :: c = b ++ '.' :: d → a = b ∧ c = d := by
  intro a
  induction a with
  | nil =>
    intro b c d _ hb h
    match b with
    | [] => simpa using h
    | y :: b' =>
      exfalso
      simp only [List.nil_append, List.cons_append, List.cons.injEq] at h
      exact hb y (List.mem_cons_self _ _) h.1.symm
  | cons x a' ih =>
    intro b c d ha hb h
    match b with
    | [] =>
      exfalso
      simp only [List.cons_append, List.nil_append, List.cons.injEq] at h
      exact ha x (List.mem_cons_self _ _) h.1
    | y :: b' =>
      simp only [List.cons_append, List.cons.injEq] at h
      obtain ⟨hxy, htail⟩ := h
      have := ih b' c d (fun z hz => ha z (List.mem_cons_of_mem _ hz))
        (fun z hz => hb z (List.mem_cons_of_mem _ hz)) htail
      exact ⟨by rw [hxy, this.1], this.2⟩

theorem cellToHash_data (c : Cell) :
    (cellToHash c).data = intChars c.q ++ '.' :: intChars c.r := by
  show ((intStr c.q ++ hashDelimeter) ++ intStr c.r).data = _
  rw [String.data_append, String.data_append]
  show (intChars c.q ++ ['.']) ++ intChars c.r = _
  simp

/-! ### The grid state

`vg.SqrGrid`'s indexing state.  `this.cells` (a string-keyed JS object) is
an association list in insertion order; `this._fullCellSize` is kept as a
stored field exactly as the source caches it.  Geometry/material caches are
outside the indexing core and are not modelled.  `extrudeSettings` is an
opaque pass-through blob, modelled by a placeholder type. -/

/-- World-space position (`THREE.Vector3`), components over `ℚ`. -/
structure Vec3 where
  x : ℚ
  y : ℚ
  z : ℚ
deriving DecidableEq

/-- The square grid's indexing state. -/
structure SqrGrid where
  size : Int
  cellSize : ℚ
  fullCellSize : ℚ
  cells : List (String × Cell)
  numCells : Int
  autogenerated : Bool
  extrudeSettings : Option Unit
deriving DecidableEq

/-- The `vg.SqrGrid` constructor: empty store, `numCells = 0`, cached
`_fullCellSize = cellSize * 2`, `size = 5`, `autogenerated = false`. -/
def mkSqrGrid (cellSize : ℚ) : SqrGrid :=
  { size := 5, cellSize := cellSize, fullCellSize := cellSize * 2,
    cells := [], numCells := 0, autogenerated := false, extrudeSettings := none }

/-- A freshly constructed grid with the default `cellSize` of 10. -/
def emptyGrid : SqrGrid := mkSqrGrid 10

/-- `this.cells[k]`: lookup of a key in the store (first match). -/
def lookupKey : List (String × Cell) → String → Option Cell
  | [], _ => none
  | p :: rest, k => if p.1 = k then some p.2 else lookupKey rest k

/-- `delete this.cells[k]`: removal of the entry under a key (a JS object
holds at most one entry per key, so removing the first match is exact). -/
def eraseKey : List (String × Cell) → String → List (String × Cell)
  | [], _ => []
  | p :: rest, k => if p.1 = k then rest else p :: eraseKey rest k

/-- `add(cell)`: hash the cell; if the key is occupied return nothing and
change nothing, else store the cell (insertion order: at the end),
increment `numCells` and return the cell. -/
def addCell (g : SqrGrid) (c : Cell) : SqrGrid × Option Cell :=
  let key := cellToHash c
  match lookupKey g.cells key with
  | some _ => (g, none)
  | none =>
    ({ g with cells := g.cells ++ [(key, c)], numCells := g.numCells + 1 }, some c)

/-- `remove(cell)`: if the cell's key is present, delete the entry and
decrement `numCells`; otherwise do nothing. -/
def removeCell (g : SqrGrid) (c : Cell) : SqrGrid :=
  let key := cellToHash c
  match lookupKey g.cells key with
  | some _ => { g with cells := eraseKey g.cells key, numCells := g.numCells - 1 }
  | none => g

/-- `traverse(cb)`: the sequence of cells a full traversal visits (the
store's values in enumeration order). -/
def traverse (g : SqrGrid) : List Cell := g.cells.map Prod.snd

/-- `cellToPixel(cell)`: world position of a cell —
`x = q * fullCellSize`, `y = h`, `z = r * fullCellSize`. -/
def cellToPixel (g : SqrGrid) (c : Cell) : Vec3 :=
  ⟨(c.q : ℚ) * g.fullCellSize, (c.h : ℚ), (c.r : ℚ) * g.fullCellSize⟩

/-- `pixelToCell(pos)`: the coordinate triple written into the scratch cell
by `this._cel.set(q, r, 0)` — `q = round(x / fullCellSize)`,
`r = round(z / fullCellSize)`, `s = 0`.  JS `Math.round` rounds half toward
`+∞`, which is Mathlib's `round` (`⌊x + 1/2⌋`). -/
def pixelToCell (g : SqrGrid) (pos : Vec3) : Int × Int × Int :=
  (round (pos.x / g.fullCellSize), round (pos.z / g.fullCellSize), 0)

/-- `this._directions`: the four orthogonal steps, in source order. -/
def sqrDirections : List Cell :=
  [newCell 1 0 0, newCell 0 (-1) 0, newCell (-1) 0 0, newCell 0 1 0]

/-- `this._diagonals`: the four diagonal steps, in source order. -/
def sqrDiagonals : List Cell :=
  [newCell (-1) (-1) 0, newCell (-1) 1 0, newCell 1 1 0, newCell 1 (-1) 0]

/-- The body of one `getNeighbors` loop: for each direction, offset the
queried cell, look the result up in the store, skip it when absent or when
the supplied filter rejects it, otherwise push it. -/
def neighborsLoop (g : SqrGrid) (cell : Cell) (filter : Option (Cell → Cell → Bool)) :
    List Cell → List Cell
  | [] => []
  | d :: rest =>
    match lookupKey g.cells (cellToHash (cellAdd cell d)) with
    | none => neighborsLoop g cell filter rest
    | some n =>
      match filter with
      | some f =>
        if f cell n then n :: neighborsLoop g cell filter rest
        else neighborsLoop g cell filter rest
      | none => n :: neighborsLoop g cell filter rest

/-- `getNeighbors(cell, diagonal, filter)`: the orthogonal loop, followed by
the diagonal loop when `diagonal` is set. -/
def getNeighbors (g : SqrGrid) (cell : Cell) (diagonal : Bool)
    (filter : Option (Cell → Cell → Bool)) : List Cell :=
  neighborsLoop g cell filter sqrDirections ++
    (if diagonal then neighborsLoop g cell filter sqrDiagonals else [])

/-- `getRandomCell`'s loop over the store: return the cell at position `x`
in enumeration order; if the counter never reaches `x`, fall through to
`return this.cells[c]` with `c` the last visited key (the last cell), or
`undefined` (`none`) when the store is empty. -/
def getRandomCellGo (x : Nat) : Nat → List (String × Cell) → Option Cell
  | _, [] => none
  | i, (_, c) :: rest =>
    if i = x then some c
    else
      match rest with
      | [] => some c
      | _ :: _ => getRandomCellGo x (i + 1) rest

/-- `getRandomCell()`: `x` is the value produced by
`vg.Tools.randomInt(0, numCells)` (not under `src/`; per the claims it may
be any integer in `[0, numCells]`), passed explicitly. -/
def getRandomCell (g : SqrGrid) (x : Nat) : Option Cell :=
  getRandomCellGo x 0 g.cells

/-- `generate(config)`: set `this.size`, compute `half = Math.ceil(size / 2)`
(the integer ceiling of the halved size, written as `-((-size) / 2)` with
floor division), and for `x` from `-half` while `x < half`, for `y`
likewise, add a fresh cell `new vg.Cell(x, y + 1)`. -/
def generate (g : SqrGrid) (size : Int) : SqrGrid :=
  let g0 := { g with size := size }
  let half : Int := -((-size).ediv 2)
  let iter : List Int := (List.range (2 * half).toNat).map (fun i => -half + i)
  iter.foldl (fun gx x => iter.foldl (fun gy y => (addCell gy (newCell x (y + 1) 0)).1) gx) g0

/-! ### Serialization -/

/-- One persisted cell record: exactly the fields `toJSON` writes per cell. -/
structure CellRecord where
  q : Int
  r : Int
  s : Int
  h : Int
  walkable : Bool
  userData : String
deriving DecidableEq

/-- The persisted grid shape (`json` in the source). -/
structure GridData where
  size : Int
  cellSize : ℚ
  extrudeSettings : Option Unit
  autogenerated : Bool
  cells : List CellRecord
deriving DecidableEq

/-- The record `toJSON` writes for a stored cell. -/
def persistCell (c : Cell) : CellRecord :=
  ⟨c.q, c.r, c.s, c.h, c.walkable, c.userData⟩

/-- `toJSON()`: grid configuration plus one record per stored cell, in
enumeration order. -/
def toJSON (g : SqrGrid) : GridData :=
  { size := g.size, cellSize := g.cellSize, extrudeSettings := g.extrudeSettings,
    autogenerated := g.autogenerated,
    cells := g.cells.map (fun p => persistCell p.2) }

/-- Modelled from the spec: `vg.Cell`'s `copy` — `new vg.Cell()` followed by
`c.copy(record)` takes the persisted fields from the record and leaves the
scratch fields at their zeroed defaults. -/
def cellFromRecord (d : CellRecord) : Cell :=
  { newCell 0 0 0 with
    q := d.q,
    r := d.r,
    s := d.s,
    h := d.h,
    walkable := d.walkable,
    userData := d.userData }

/-- `fromJSON(json)`: reset the store and `numCells`, take `size`,
`cellSize` (re-deriving `_fullCellSize`), `extrudeSettings` and
`autogenerated` from the input, then `add` a fresh copy of every record. -/
def fromJSON (g : SqrGrid) (json : GridData) : SqrGrid :=
  let g1 : SqrGrid :=
    { size := json.size, cellSize := json.cellSize,
      fullCellSize := json.cellSize * 2, cells := [], numCells := 0,
      autogenerated := json.autogenerated, extrudeSettings := json.extrudeSettings }
  json.cells.foldl (fun acc d => (addCell acc (cellFromRecord d)).1) g1

/-! ### Operation sequences and well-formedness -/

/-- One mutation of the store: an insert or a remove. -/
inductive GridOp where
  | ins (c : Cell)
  | del (c : Cell)

/-- Apply one mutation. -/
def applyOp (g : SqrGrid) : GridOp → SqrGrid
  | .ins c => (addCell g c).1
  | .del c => removeCell g c

/-- Apply a finite sequence of mutations in order. -/
def applyOps (ops : List GridOp) (g : SqrGrid) : SqrGrid :=
  ops.foldl applyOp g

/-- Well-formed grid state: every stored entry is keyed by its cell's hash,
keys are distinct, and the cached count matches the store.  Every state the
code reaches from a constructor satisfies this. -/
def WFGrid (g : SqrGrid) : Prop :=
  (∀ p ∈ g.cells, p.1 = cellToHash p.2) ∧
    (g.cells.map Prod.fst).Nodup ∧
    g.numCells = (g.cells.length : Int)

instance (g : SqrGrid) : Decidable (WFGrid g) := by
  unfold WFGrid
  infer_instance

/-! ### Concrete states and claim-side descriptions used by the theorems -/

/-- A fully populated 3×3 grid centered at the origin. -/
def grid3x3 : SqrGrid :=
  (([-1, 0, 1] : List Int).flatMap fun q => ([-1, 0, 1] : List Int).map fun r => (q, r)).foldl
    (fun g p => (addCell g (newCell p.1 p.2 0)).1) emptyGrid

/-- The claim's per-offset candidate: look the coordinate `(q + dq, r + dr)`
up in the store, skip it when absent, and drop it when a supplied filter
rejects the `(center, candidate)` pair. -/
def probe (g : SqrGrid) (cell : Cell) (filter : Option (Cell → Cell → Bool))
    (o : Int × Int) : Option Cell :=
  match lookupKey g.cells (intStr (cell.q + o.1) ++ hashDelimeter ++ intStr (cell.r + o.2)) with
  | none => none
  | some n =>
    match filter with
    | some f => if f cell n then some n else none
    | none => some n

/-- A prior grid state holding one cell at `(5, 5)`, used to exhibit that a
load is not atomic. -/
def gPrior : SqrGrid := (addCell emptyGrid (newCell 5 5 0)).1

/-- A small concrete grid holding cells at `(0, 0)` and `(1, 2)`. -/
def gTwo : SqrGrid := (addCell (addCell emptyGrid (newCell 0 0 0)).1 (newCell 1 2 0)).1

/-- A malformed persisted record: two cells with the same `(q, r)` pair and
a negative `cellSize`. -/
def badData : GridData :=
  { size := 1, cellSize := -5, extrudeSettings := none, autogenerated := false,
    cells := [⟨0, 0, 0, 5, true, ""⟩, ⟨0, 0, 0, 9, true, ""⟩] }

/-! ### Claim theorems -/

/-- C5: `cellToHash` depends only on `(q, r)` and is injective in that pair:
two cells hash to the same key exactly when their `q` and `r` agree, so
distinct integer pairs get distinct keys and equal pairs get identical keys
regardless of `s`, `h`, or `walkable`. -/
theorem claim_C5 (c1 c2 : Cell) :
    cellToHash c1 = cellToHash c2 ↔ c1.q = c2.q ∧ c1.r = c2.r := by
  constructor
  · intro h
    have hd := congrArg String.data h
    rw [cellToHash_data, cellToHash_data] at hd
    have hsplit := append_dot_inj _ _ _ _ (intChars_ne_dot c1.q) (intChars_ne_dot c2.q) hd
    exact ⟨intChars_inj hsplit.1, intChars_inj hsplit.2⟩
  · intro h
    unfold cellToHash intStr
    rw [h.1, h.2]

/-- C2: for every cell with integer coordinates, converting to a world
position with `cellToPixel` and back with `pixelToCell` returns exactly the
original `(q, r)` (and `s = 0`), given the spec's invariants that
`cellSize > 0` and the cached `_fullCellSize` equals `2 * cellSize`. -/
theorem claim_C2 (g : SqrGrid) (c : Cell)
    (hfull : g.fullCellSize = 2 * g.cellSize) (hpos : 0 < g.cellSize) :
    pixelToCell g (cellToPixel g c) = (c.q, c.r, 0) := by
  have hne : g.fullCellSize ≠ 0 := by
    rw [hfull]
    positivity
  unfold pixelToCell cellToPixel
  simp only [mul_div_cancel_right₀ _ hne, round_intCast]

/-- Witness for C2 at the default grid (`cellSize = 10`) and the cell
`(3, -7)`. -/
theorem claim_C2_witness :
    pixelToCell emptyGrid (cellToPixel emptyGrid (newCell 3 (-7) 0)) = (3, -7, 0) :=
  claim_C2 emptyGrid (newCell 3 (-7) 0) (by norm_num [emptyGrid, mkSqrGrid])
    (by norm_num [emptyGrid, mkSqrGrid])

/-- C4: `add` on an occupied key is a complete no-op returning nothing (the
grid state, including the previously stored cell, is unchanged and
`numCells` is not incremented); on a free key it appends the cell under its
hash, increments `numCells` by one and returns the cell. -/
theorem claim_C4 (g : SqrGrid) (c c' : Cell) :
    (lookupKey g.cells (cellToHash c) = some c' → addCell g c = (g, none)) ∧
    (lookupKey g.cells (cellToHash c) = none →
      addCell g c =
        ({ g with cells := g.cells ++ [(cellToHash c, c)], numCells := g.numCells + 1 },
          some c)) := by
  constructor
  · intro h
    simp [addCell, h]
  · intro h
    simp [addCell, h]

/-- Witness for C4: inserting a second cell at `(0, 0)` with `h = 9` into a
grid holding a cell at `(0, 0)` with `h = 5` changes nothing and returns
nothing, while the first insertion into the empty grid returned its cell. -/
theorem claim_C4_witness :
    addCell (addCell emptyGrid { newCell 0 0 0 with h := 5 }).1 { newCell 0 0 0 with h := 9 } =
      ((addCell emptyGrid { newCell 0 0 0 with h := 5 }).1, none) ∧
    (addCell emptyGrid { newCell 0 0 0 with h := 5 }).2 = some { newCell 0 0 0 with h := 5 } :=
  ⟨(claim_C4 (addCell emptyGrid { newCell 0 0 0 with h := 5 }).1
      { newCell 0 0 0 with h := 9 } { newCell 0 0 0 with h := 5 }).1 (by decide),
    congrArg Prod.snd
      ((claim_C4 emptyGrid { newCell 0 0 0 with h := 5 } (newCell 0 0 0)).2 (by decide))⟩

/-- C9 counterexample: on an empty store `getRandomCell` silently returns
an absent value (`undefined`); it does not fail fast with an assertion or
explicit error — the claim as stated is false on the code. -/
theorem claim_C9_counterexample :
    emptyGrid.numCells = 0 ∧ getRandomCell emptyGrid 0 = none := by
  decide

/-- C9 amended: calling `getRandomCell` on an empty store silently yields
an absent result (`undefined`), whatever index the random source produced;
checking `numCells > 0` first is the caller's responsibility. -/
theorem claim_C9_amended (g : SqrGrid) (x : Nat) (hg : g.cells = []) :
    getRandomCell g x = none := by
  unfold getRandomCell
  rw [hg]
  rfl

/-- Witness for the amended C9 at the freshly constructed grid. -/
theorem claim_C9_witness : getRandomCell emptyGrid 5 = none :=
  claim_C9_amended emptyGrid 5 rfl

/-- Deleting a present key shrinks the store by exactly one entry. -/
theorem eraseKey_length {l : List (String × Cell)} {k : String} {c : Cell}
    (h : lookupKey l k = some c) : l.length = (eraseKey l k).length + 1 := by
  induction l with
  | nil => simp [lookupKey] at h
  | cons p rest ih =>
    by_cases hk : p.1 = k
    · simp [eraseKey, hk]
    · simp only [lookupKey, hk, if_false] at h
      simp [eraseKey, hk, ih h]

/-- One mutation preserves the count invariant. -/
theorem applyOp_count {g : SqrGrid} (hg : g.numCells = (g.cells.length : Int)) (op : GridOp) :
    (applyOp g op).numCells = ((applyOp g op).cells.length : Int) := by
  cases op with
  | ins c =>
    simp only [applyOp]
    cases hl : lookupKey g.cells (cellToHash c) with
    | some c0 => simp [addCell, hl, hg]
    | none => simp [addCell, hl, hg]
  | del c =>
    simp only [applyOp]
    cases hl : lookupKey g.cells (cellToHash c) with
    | some c0 =>
      have hlen := eraseKey_length hl
      simp only [removeCell, hl]
      rw [hg, hlen]
      push_cast
      ring
    | none => simp [removeCell, hl, hg]

/-- Any sequence of mutations preserves the count invariant. -/
theorem applyOps_count :
    ∀ (ops : List GridOp) (g : SqrGrid), g.numCells = (g.cells.length : Int) →
      (applyOps ops g).numCells = ((applyOps ops g).cells.length : Int) := by
  intro ops
  induction ops with
  | nil => intro g hg; exact hg
  | cons op rest ih =>
    intro g hg
    have step := applyOp_count hg op
    simpa [applyOps] using ih (applyOp g op) step

/-- C1: starting from an empty grid, after every finite sequence of insert
and remove operations (duplicate inserts and removes of absent cells
included) the cached `numCells` equals the number of live entries a full
traversal visits. -/
theorem claim_C1 (ops : List GridOp) :
    (applyOps ops emptyGrid).numCells = ((traverse (applyOps ops emptyGrid)).length : Int) := by
  have := applyOps_count ops emptyGrid (by decide)
  simpa [traverse] using this

/-- C8 counterexample: `fromJSON` given a record list with a duplicate
`(q, r)` pair and a negative `cellSize` does not fail — it silently keeps
the first duplicate (so `numCells = 1`, the stored `(0,0)` cell keeps
`h = 5`), accepts the negative `cellSize` verbatim, and the prior grid
state (a cell at `(5, 5)`) is discarded rather than left untouched. -/
theorem claim_C8_counterexample :
    (fromJSON gPrior badData).numCells = 1 ∧
    (fromJSON gPrior badData).cellSize = -5 ∧
    lookupKey (fromJSON gPrior badData).cells (cellToHash (newCell 0 0 0)) =
      some (cellFromRecord ⟨0, 0, 0, 5, true, ""⟩) ∧
    lookupKey (fromJSON gPrior badData).cells (cellToHash (newCell 5 5 0)) = none := by
  decide

/-- C8 amended: `fromJSON` performs no validation and never fails: records
whose `(q, r)` duplicates an earlier one are silently ignored, a negative
`cellSize` is accepted verbatim, and the prior grid state is
unconditionally discarded — the rebuilt state depends only on the input
data. -/
theorem claim_C8_amended :
    (∀ (g g' : SqrGrid) (d : GridData), fromJSON g d = fromJSON g' d) ∧
    (fromJSON gPrior badData).numCells = 1 ∧
    (fromJSON gPrior badData).cellSize = -5 := by
  refine ⟨fun g g' d => rfl, ?_, ?_⟩ <;> decide

/-- One `getNeighbors` loop equals filtering the looked-up candidates over
the corresponding integer offsets, in order. -/
theorem neighborsLoop_eq (g : SqrGrid) (cell : Cell) (filt : Option (Cell → Cell → Bool)) :
    ∀ ds : List Cell,
      neighborsLoop g cell filt ds = (ds.map fun d => (d.q, d.r)).filterMap (probe g cell filt) := by
  intro ds
  induction ds with
  | nil => rfl
  | cons d rest ih =>
    have hkey : intStr (cell.q + d.q) ++ hashDelimeter ++ intStr (cell.r + d.r) =
        cellToHash (cellAdd cell d) := rfl
    simp only [List.map_cons, List.filterMap_cons, probe, hkey]
    cases hl : lookupKey g.cells (cellToHash (cellAdd cell d)) with
    | none => simp [neighborsLoop, hl, ih]
    | some n =>
      cases filt with
      | none => simp [neighborsLoop, hl, ih]
      | some f =>
        by_cases hf : f cell n
        · simp [neighborsLoop, hl, hf, ih]
        · simp [neighborsLoop, hl, hf, ih]

/-- C6: `getNeighbors` returns exactly the stored cells at the four
orthogonal offsets `(±1,0), (0,±1)` in the source's fixed order, followed —
only when the diagonal flag is set — by the stored cells at the four
diagonal offsets `(±1,±1)` in their fixed order; absent neighbors are
skipped and candidates rejected by a supplied `filter(center, candidate)`
are excluded.  On the fully populated 3×3 grid centered at the origin the
orthogonal query returns exactly the 4 orthogonal cells, the diagonal query
returns 8 cells, and a filter keeping only `q = 0` candidates drops the
rest. -/
theorem claim_C6 :
    (∀ (g : SqrGrid) (cell : Cell) (filt : Option (Cell → Cell → Bool)) (diag : Bool),
      getNeighbors g cell diag filt =
        (([(1, 0), (0, -1), (-1, 0), (0, 1)] : List (Int × Int)).filterMap
            (probe g cell filt)) ++
          (if diag then
            (([(-1, -1), (-1, 1), (1, 1), (1, -1)] : List (Int × Int)).filterMap
              (probe g cell filt))
          else [])) ∧
    getNeighbors grid3x3 (newCell 0 0 0) false none =
      [newCell 1 0 0, newCell 0 (-1) 0, newCell (-1) 0 0, newCell 0 1 0] ∧
    (getNeighbors grid3x3 (newCell 0 0 0) true none).length = 8 ∧
    getNeighbors grid3x3 (newCell 0 0 0) false (some fun _ n => n.q == 0) =
      [newCell 0 (-1) 0, newCell 0 1 0] := by
  refine ⟨?_, by decide, by decide, by decide⟩
  intro g cell filt diag
  unfold getNeighbors
  rw [neighborsLoop_eq, neighborsLoop_eq]
  cases diag <;> rfl

/-- C7 counterexample: `generate` with `size = 5` produces the pair
`(2, 3)`, which lies outside the claimed product `[-3,2) × [-2,3)`, and it
leaves `autogenerated` at `false` rather than marking it `true`. -/
theorem claim_C7_counterexample :
    ((2 : Int), (3 : Int)) ∈ (generate emptyGrid 5).cells.map (fun p => (p.2.q, p.2.r)) ∧
    ((2 : Int), (3 : Int)) ∉
      (([-3, -2, -1, 0, 1] : List Int).flatMap fun q =>
        ([-2, -1, 0, 1, 2] : List Int).map fun r => (q, r)) ∧
    (generate emptyGrid 5).autogenerated = false := by
  decide

/-- C7 amended: on an empty grid, `generate` with `size = 5` produces a
cell set whose `(q, r)` pairs are exactly the Cartesian product
`[-3,3) × [-2,4)` (the half-ceiling rule `[-ceil(size/2), ceil(size/2))`
for `q`, shifted up by one for `r`) with no duplicate pairs, and leaves
`autogenerated = false` (`generateTiles`, not `generate`, sets that flag). -/
theorem claim_C7_amended :
    (generate emptyGrid 5).cells.map (fun p => (p.2.q, p.2.r)) =
      (([-3, -2, -1, 0, 1, 2] : List Int).flatMap fun q =>
        ([-2, -1, 0, 1, 2, 3] : List Int).map fun r => (q, r)) ∧
    ((generate emptyGrid 5).cells.map fun p => (p.2.q, p.2.r)).Nodup ∧
    (generate emptyGrid 5).autogenerated = false := by
  decide

/-- A key absent from a store's front segment is looked up in the rest. -/
theorem lookupKey_append_none {l1 l2 : List (String × Cell)} {k : String}
    (h : lookupKey l1 k = none) : lookupKey (l1 ++ l2) k = lookupKey l2 k := by
  induction l1 with
  | nil => rfl
  | cons p rest ih =>
    by_cases hk : p.1 = k
    · simp [lookupKey, hk] at h
    · simp only [lookupKey, hk, if_false] at h
      simp only [List.cons_append, lookupKey, hk, if_false]
      exact ih h

/-- Folding `add` over records whose keys are fresh and pairwise distinct
appends exactly one entry per record, in order, and counts them. -/
theorem addFold_eq (ds : List CellRecord) :
    ∀ g0 : SqrGrid,
      (∀ d ∈ ds, lookupKey g0.cells (cellToHash (cellFromRecord d)) = none) →
      (ds.map fun d => cellToHash (cellFromRecord d)).Nodup →
      ds.foldl (fun acc d => (addCell acc (cellFromRecord d)).1) g0 =
        { g0 with
          cells := g0.cells ++ ds.map (fun d => (cellToHash (cellFromRecord d), cellFromRecord d)),
          numCells := g0.numCells + ds.length } := by
  induction ds with
  | nil =>
    intro g0 _ _
    simp
  | cons d rest ih =>
    intro g0 hfresh hnodup
    have hd := hfresh d (List.mem_cons_self d rest)
    have hstep : (addCell g0 (cellFromRecord d)).1 =
        { g0 with
          cells := g0.cells ++ [(cellToHash (cellFromRecord d), cellFromRecord d)],
          numCells := g0.numCells + 1 } := by
      simp [addCell, hd]
    simp only [List.foldl_cons, hstep]
    rw [ih]
    · congr 1
      · simp
      · simp only [List.length_cons]
        push_cast
        ring
    · intro d' hd'
      simp only [List.append_assoc]
      rw [lookupKey_append_none (hfresh d' (List.mem_cons_of_mem d hd'))]
      have hne : cellToHash (cellFromRecord d) ≠ cellToHash (cellFromRecord d') := by
        simp only [List.map_cons, List.nodup_cons] at hnodup
        intro hcontra
        exact hnodup.1 (hcontra ▸ List.mem_map_of_mem _ hd')
      simp [lookupKey, hne]
    · simp only [List.map_cons, List.nodup_cons] at hnodup
      exact hnodup.2

/-- Persisting a cell rebuilt from a record recovers the record: the
persisted fields are exactly the fields `copy` takes over. -/
theorem persist_cellFromRecord (d : CellRecord) : persistCell (cellFromRecord d) = d := rfl

/-- C3: `fromJSON (toJSON g)` rebuilds a grid with identical `cellSize`,
identical `numCells`, and the same cells by their persisted fields
`(q, r, s, h, walkable, userData)` in the same enumeration order; the
transient pathfinding scratch fields are not persisted and are zero on
every rebuilt cell. -/
theorem claim_C3 (g : SqrGrid) (hwf : WFGrid g) :
    (fromJSON g (toJSON g)).cellSize = g.cellSize ∧
    (fromJSON g (toJSON g)).numCells = g.numCells ∧
    (fromJSON g (toJSON g)).cells.map (fun p => persistCell p.2) =
      g.cells.map (fun p => persistCell p.2) ∧
    ∀ p ∈ (fromJSON g (toJSON g)).cells,
      p.2.calcCost = 0 ∧ p.2.priority = 0 ∧ p.2.parent = none ∧ p.2.visited = false := by
  obtain ⟨hkeys, hnodup, hcount⟩ := hwf
  have hmapkeys : (toJSON g).cells.map (fun d => cellToHash (cellFromRecord d)) =
      g.cells.map Prod.fst := by
    show (g.cells.map fun p => persistCell p.2).map (fun d => cellToHash (cellFromRecord d)) = _
    rw [List.map_map]
    exact List.map_congr_left fun p hp => (hkeys p hp).symm
  have hfold := addFold_eq (toJSON g).cells
    { size := (toJSON g).size, cellSize := (toJSON g).cellSize,
      fullCellSize := (toJSON g).cellSize * 2, cells := [], numCells := 0,
      autogenerated := (toJSON g).autogenerated,
      extrudeSettings := (toJSON g).extrudeSettings }
    (fun _ _ => rfl) (hmapkeys ▸ hnodup)
  have hres : fromJSON g (toJSON g) =
      { size := (toJSON g).size, cellSize := (toJSON g).cellSize,
        fullCellSize := (toJSON g).cellSize * 2,
        cells :=
          [] ++ (toJSON g).cells.map
            (fun d => (cellToHash (cellFromRecord d), cellFromRecord d)),
        numCells := 0 + (toJSON g).cells.length,
        autogenerated := (toJSON g).autogenerated,
        extrudeSettings := (toJSON g).extrudeSettings } := hfold
  refine ⟨?_, ?_, ?_, ?_⟩
  · rw [hres]
    rfl
  · rw [hres]
    show 0 + ((toJSON g).cells.length : Int) = g.numCells
    have hlen : (toJSON g).cells.length = g.cells.length := by
      show ((g.cells.map fun p => persistCell p.2).length) = _
      simp
    rw [hlen, hcount]
    ring
  · rw [hres]
    simp only [List.nil_append, List.map_map, Function.comp_def, persist_cellFromRecord]
    simp only [List.map_id']
    rfl
  · rw [hres]
    intro p hp
    simp only [List.nil_append, List.mem_map] at hp
    obtain ⟨d, _, hpd⟩ := hp
    refine ⟨?_, ?_, ?_, ?_⟩ <;> (rw [← hpd]; rfl)

/-- Witness for C3 at a concrete two-cell grid. -/
theorem claim_C3_witness :
    (fromJSON gTwo (toJSON gTwo)).cellSize = gTwo.cellSize ∧
    (fromJSON gTwo (toJSON gTwo)).numCells = gTwo.numCells ∧
    (fromJSON gTwo (toJSON gTwo)).cells.map (fun p => persistCell p.2) =
      gTwo.cells.map (fun p => persistCell p.2) :=
  ⟨(claim_C3 gTwo (by decide)).1, (claim_C3 gTwo (by decide)).2.1,
    (claim_C3 gTwo (by decide)).2.2.1⟩

/-- When the uniformly chosen index is hit before the loop ends,
`getRandomCell`'s loop returns the entry at that position. -/
theorem getRandomCellGo_lt :
    ∀ (l : List (String × Cell)) (i x : Nat), i ≤ x → x - i < l.length →
      getRandomCellGo x i l = (l[x - i]?).map Prod.snd := by
  intro l
  induction l with
  | nil =>
    intro i x _ h
    simp at h
  | cons p rest ih =>
    intro i x hix hlt
    by_cases hx : i = x
    · subst hx
      simp [getRandomCellGo, Nat.sub_self]
    · have hlt2 : i < x := lt_of_le_of_ne hix hx
      cases rest with
      | nil =>
        simp only [List.length_cons, List.length_nil] at hlt
        omega
      | cons q rest' =>
        have hstep : getRandomCellGo x i (p :: q :: rest') =
            getRandomCellGo x (i + 1) (q :: rest') := by
          simp [getRandomCellGo, hx]
        rw [hstep, ih (i + 1) x (by omega)
          (by simp only [List.length_cons] at hlt ⊢; omega)]
        have hsub : x - i = (x - (i + 1)) + 1 := by omega
        rw [hsub, List.getElem?_cons_succ]

/-- When the uniformly chosen index is never hit (one past the end),
`getRandomCell`'s loop falls through to the last enumerated cell. -/
theorem getRandomCellGo_last :
    ∀ (l : List (String × Cell)) (i x : Nat), l ≠ [] → l.length ≤ x - i →
      getRandomCellGo x i l = (l.getLast?).map Prod.snd := by
  intro l
  induction l with
  | nil =>
    intro i x h _
    exact absurd rfl h
  | cons p rest ih =>
    intro i x _ hge
    have hx : i ≠ x := by
      simp only [List.length_cons] at hge
      omega
    cases rest with
    | nil => simp [getRandomCellGo, hx, List.getLast?_singleton]
    | cons q rest' =>
      have hstep : getRandomCellGo x i (p :: q :: rest') =
          getRandomCellGo x (i + 1) (q :: rest') := by
        simp [getRandomCellGo, hx]
      rw [hstep,
        ih (i + 1) x (by simp) (by simp only [List.length_cons] at hge ⊢; omega),
        List.getLast?_cons_cons]

/-- C10: on a non-empty store, `getRandomCell` returns a stored cell for
every index the random source may produce in `[0, numCells]`: an index
strictly below `numCells` selects the cell at that position in enumeration
order, and the index `numCells` (one past the end) makes the trailing
fallback return the last enumerated cell rather than an absent result. -/
theorem claim_C10 (g : SqrGrid) (x : Nat) (hne : g.cells ≠ [])
    (hwf : g.numCells = (g.cells.length : Int)) (hx : (x : Int) ≤ g.numCells) :
    (getRandomCell g x).isSome = true ∧
    (∀ c, getRandomCell g x = some c → c ∈ traverse g) ∧
    (x < g.cells.length → getRandomCell g x = (g.cells[x]?).map Prod.snd) ∧
    ((x : Int) = g.numCells → getRandomCell g x = (g.cells.getLast?).map Prod.snd) := by
  have hxle : x ≤ g.cells.length := by
    rw [hwf] at hx
    exact_mod_cast hx
  rcases lt_or_eq_of_le hxle with hlt | heq
  · have hres : getRandomCell g x = (g.cells[x]?).map Prod.snd := by
      show getRandomCellGo x 0 g.cells = _
      have := getRandomCellGo_lt g.cells 0 x (Nat.zero_le x) (by omega)
      simpa using this
    have hsome : g.cells[x]? = some g.cells[x] := List.getElem?_eq_getElem hlt
    refine ⟨?_, ?_, fun _ => hres, ?_⟩
    · rw [hres, hsome]
      rfl
    · intro c hc
      rw [hres, hsome] at hc
      simp only [Option.map_some', Option.some.injEq] at hc
      exact hc ▸ List.mem_map_of_mem Prod.snd (List.getElem_mem hlt)
    · intro habs
      rw [hwf] at habs
      have : x = g.cells.length := by exact_mod_cast habs
      omega
  · have hres : getRandomCell g x = (g.cells.getLast?).map Prod.snd := by
      show getRandomCellGo x 0 g.cells = _
      exact getRandomCellGo_last g.cells 0 x hne (by omega)
    have hlast : g.cells.getLast? = some (g.cells.getLast hne) :=
      List.getLast?_eq_getLast g.cells hne
    refine ⟨?_, ?_, ?_, fun _ => hres⟩
    · rw [hres, hlast]
      rfl
    · intro c hc
      rw [hres, hlast] at hc
      simp only [Option.map_some', Option.some.injEq] at hc
      exact hc ▸ List.mem_map_of_mem Prod.snd (List.getLast_mem hne)
    · intro habs
      omega

/-- Witness for C10 at a concrete two-cell grid: index 1 selects the second
cell, index 2 (one past the end) falls back to the last cell. -/
theorem claim_C10_witness :
    getRandomCell gTwo 1 = (gTwo.cells[1]?).map Prod.snd ∧
    getRandomCell gTwo 2 = (gTwo.cells.getLast?).map Prod.snd :=
  ⟨(claim_C10 gTwo 1 (by decide) (by decide) (by decide)).2.2.1 (by decide),
    (claim_C10 gTwo 2 (by decide) (by decide) (by decide)).2.2.2 (by decide)⟩

end VonGrid
